import Mathlib

/-!
Shallow embedding of the event-processing core of strato-db
(src/src/EventSourcingDB/EventSourcingDB.js and src/src/DB/DB.js).

JavaScript values that flow through the pipeline (event payloads, reducer
outputs, error maps) are modelled by the inductive `Val`; JS objects are
association lists in key-insertion order.  Events are the queue records of
the engine; `Option` fields model present/absent keys (a deleted key is
`none`).  The asynchronous pipeline is modelled as pure state passing over
`Sys` (the RW database: abstract per-model store contents plus the
persisted `user_version` pragma), and the apply-phase writes are also
recorded in an action trace (`Act`) so that ordering facts can be stated.

Model callbacks (preprocessor / reducer / applyChanges / deriver) are
user-supplied code; they are parameters of the embedding (`Behavior`),
with explicit constructors for the outcomes the engine distinguishes
(throwing, returning a falsy value, returning the model itself, ...).
The `dispatch` closure handed to preprocessors and derivers appends
sub-events to the event under processing; in this pure embedding those
appended sub-events are part of the callback's returned outcome.
-/

/-- JS values as far as the engine inspects them. -/
inductive Val where
  | vnull
  | vbool (b : Bool)
  | vnum (n : Int)
  | str (s : String)
  | varr (l : List Val)
  | vobj (o : List (String × Val))

/-- A JS object: association list of fields in insertion order. -/
abbrev Obj := List (String × Val)

/-- JS truthiness for `Val`. -/
def Val.truthy : Val → Bool
  | .vnull => false
  | .vbool b => b
  | .vnum n => n != 0
  | .str s => !s.isEmpty
  | .varr _ => true
  | .vobj _ => true

/-- Property read `o[k]` on a JS object (first binding of the key). -/
def objGet (o : Obj) (k : String) : Option Val :=
  (o.find? (fun p => p.1 == k)).map Prod.snd

/-- Property write `o[k] = v` / spread-with-override: replaces the value in
place when the key exists, appends the field otherwise. -/
def objSet (o : Obj) (k : String) (v : Val) : Obj :=
  if o.any (fun p => p.1 == k) then
    o.map (fun p => if p.1 == k then (k, v) else p)
  else o ++ [(k, v)]

/-- JS whitespace test for the characters that occur in error strings. -/
def isWs (c : Char) : Bool :=
  c == ' ' || c == '\t' || c == '\n' || c == '\r'

/-- Collapses every whitespace run to a single space, as the source's
`String(msg).replace(/\s+/g, ' ')` does. -/
def collapseWs (s : String) : String :=
  let rec go : List Char → List Char
    | [] => []
    | c :: rest =>
      let r := go rest
      if isWs c then
        match r with
        | ' ' :: _ => r
        | _ => ' ' :: r
      else c :: r
  String.mk (go s.toList)

/-- The source's `errorToString` applied to a thrown error, where `msg`
stands for the error's `stack`/`message`/`String(error)` text (stack traces
are abstracted by the message carried in the behaviour's outcome). -/
def errorToString (msg : String) : String := collapseWs msg

/-- JS `String(v)` for the shallow values that reach `errorToString`
(arrays are abstracted, they never reach it in the modelled flows). -/
def valToDisplay : Val → String
  | .vnull => "null"
  | .vbool b => cond b "true" "false"
  | .vnum n => toString n
  | .str s => s
  | .varr _ => "[array]"
  | .vobj _ => "[object Object]"

/-- The source's `errorToString` applied to an error map object (used when
a preprocessor returns an event that already carries an `error` field):
`error.stack || error.message || String(error)`, whitespace-collapsed. -/
def errObjToString (o : Obj) : String :=
  let pick : String → Option String := fun k =>
    match objGet o k with
    | some v => if v.truthy then some (valToDisplay v) else none
    | none => none
  collapseWs (((pick "stack").or (pick "message")).getD "[object Object]")

/-- An event record as stored in the queue / handled by the pipeline.
Optional fields model JS keys that may be absent or deleted.  The `events`
list holds sub-events; an absent `events` key and an empty array behave
identically in every flow modelled here and are both represented by `[]`. -/
inductive Event where
  | mk (v : Option Nat) (type : String) (data : Option Val) (ts : Option Nat)
       (result : Option Obj) (error : Option Obj) (failedResult : Option Obj)
       (events : List Event)

namespace Event

def v : Event → Option Nat | .mk x _ _ _ _ _ _ _ => x

def type : Event → String | .mk _ x _ _ _ _ _ _ => x

def data : Event → Option Val | .mk _ _ x _ _ _ _ _ => x

def ts : Event → Option Nat | .mk _ _ _ x _ _ _ _ => x

def result : Event → Option Obj | .mk _ _ _ _ x _ _ _ => x

def error : Event → Option Obj | .mk _ _ _ _ _ x _ _ => x

def failedResult : Event → Option Obj | .mk _ _ _ _ _ _ x _ => x

def events : Event → List Event | .mk _ _ _ _ _ _ _ x => x

def withV : Event → Option Nat → Event
  | .mk _ t d ts r e f es, x => .mk x t d ts r e f es

def withType : Event → String → Event
  | .mk v _ d ts r e f es, x => .mk v x d ts r e f es

def withResult : Event → Option Obj → Event
  | .mk v t d ts _ e f es, x => .mk v t d ts x e f es

def withError : Event → Option Obj → Event
  | .mk v t d ts r _ f es, x => .mk v t d ts r x f es

def withFailedResult : Event → Option Obj → Event
  | .mk v t d ts r e _ es, x => .mk v t d ts r e x es

def withEvents : Event → List Event → Event
  | .mk v t d ts r e f _, x => .mk v t d ts r e f x

end Event

/-- A plain `{type, data}` record, as `dispatch`/`_subDispatch` pushes it
onto `event.events`. -/
def mkSubEvent (type : String) (data : Option Val) : Event :=
  .mk none type data none none none none []

/-- A fresh top-level event with version `v` and no payload. -/
def mkEvent (v : Option Nat) (type : String) : Event :=
  .mk v type none none none none none []

/-- The recurring `if (x.result) { x.failedResult = x.result; delete x.result }`
of the source. -/
def moveFailedResult (e : Event) : Event :=
  if e.result.isSome then (e.withFailedResult e.result).withResult none else e

section AccessorLemmas

variable (v : Option Nat) (t : String) (d : Option Val) (ts : Option Nat)
  (r er f : Option Obj) (es : List Event) (e : Event)

@[simp] theorem Event.result_withError (x : Option Obj) :
    (e.withError x).result = e.result := by cases e; rfl

@[simp] theorem Event.error_withError (x : Option Obj) :
    (e.withError x).error = x := by cases e; rfl

@[simp] theorem Event.v_withError (x : Option Obj) :
    (e.withError x).v = e.v := by cases e; rfl

@[simp] theorem Event.events_withError (x : Option Obj) :
    (e.withError x).events = e.events := by cases e; rfl

@[simp] theorem Event.error_withV (x : Option Nat) :
    (e.withV x).error = e.error := by cases e; rfl

@[simp] theorem Event.result_withV (x : Option Nat) :
    (e.withV x).result = e.result := by cases e; rfl

@[simp] theorem Event.v_withV (x : Option Nat) :
    (e.withV x).v = x := by cases e; rfl

@[simp] theorem Event.error_withResult (x : Option Obj) :
    (e.withResult x).error = e.error := by cases e; rfl

@[simp] theorem Event.result_withResult (x : Option Obj) :
    (e.withResult x).result = x := by cases e; rfl

@[simp] theorem Event.v_withResult (x : Option Obj) :
    (e.withResult x).v = e.v := by cases e; rfl

@[simp] theorem Event.error_withEvents (x : List Event) :
    (e.withEvents x).error = e.error := by cases e; rfl

@[simp] theorem Event.result_withEvents (x : List Event) :
    (e.withEvents x).result = e.result := by cases e; rfl

@[simp] theorem Event.events_withEvents (x : List Event) :
    (e.withEvents x).events = x := by cases e; rfl

@[simp] theorem Event.v_withEvents (x : List Event) :
    (e.withEvents x).v = e.v := by cases e; rfl

@[simp] theorem Event.error_withFailedResult (x : Option Obj) :
    (e.withFailedResult x).error = e.error := by cases e; rfl

@[simp] theorem Event.result_withFailedResult (x : Option Obj) :
    (e.withFailedResult x).result = e.result := by cases e; rfl

@[simp] theorem Event.error_moveFailedResult :
    (moveFailedResult e).error = e.error := by
  unfold moveFailedResult; split <;> simp

@[simp] theorem Event.failedResult_withResult (x : Option Obj) :
    (e.withResult x).failedResult = e.failedResult := by cases e; rfl

@[simp] theorem Event.failedResult_withFailedResult (x : Option Obj) :
    (e.withFailedResult x).failedResult = x := by cases e; rfl

@[simp] theorem Event.failedResult_withError (x : Option Obj) :
    (e.withError x).failedResult = e.failedResult := by cases e; rfl

@[simp] theorem Event.result_moveFailedResult :
    (moveFailedResult e).result = none := by
  unfold moveFailedResult; split <;> simp_all [Option.not_isSome_iff_eq_none]

theorem Event.failedResult_moveFailedResult (h : e.result.isSome = true) :
    (moveFailedResult e).failedResult = e.result := by
  unfold moveFailedResult; rw [if_pos h]; simp

end AccessorLemmas

/-- The RW database handle's mutable contents: abstract per-model store
tables and the persisted `PRAGMA user_version`. -/
structure Sys where
  store : List (String × Val)
  userVersion : Nat

/-- Database writes of the apply phase, recorded in order of execution. -/
inductive Act where
  | applyC (name : String)
  | setV (v : Nat)
  | deriveA (name : String)
deriving DecidableEq

/-- Outcome of a preprocessor call (`model.preprocessor({event, ...})`):
it either throws, or yields an event — returning a falsy value is
`pres event` since the source replaces it by the (possibly mutated) input;
`dispatch`ed sub-events are part of the yielded event's `events`. -/
inductive PreRes where
  | pthrow (msg : String)
  | pres (e : Event)

/-- How the engine classifies what `model.reducer(model, event)` did:
threw, returned a falsy value, returned the model itself (`out === model`),
or returned an object, whose `events` field is split off into
`EventsField`. -/
inductive EventsField where
  | absent
  | falsy
  | notArray
  | arr (l : List Event)

inductive RedOut where
  | rthrow (msg : String)
  | retFalsy
  | retModel
  | retObj (fields : Obj) (events : EventsField)

/-- Outcome of a deriver call: it throws, or completes with the updated
database state and the sub-events it `dispatch`ed. -/
inductive DerRes where
  | dthrow (msg : String)
  | dok (s : Sys) (dispatched : List Event)

/-- The model registry as the pipeline consumes it: the ordered
preprocessor list, the reducer names with their reducers, the deriver
list, and the `applyChanges` write primitive of each RW model.  Field
names follow the source (`preprocModels`, `reducerNames`,
`deriverModels`). -/
structure Behavior where
  preprocModels : List String
  preprocessor : String → Event → PreRes
  reducerNames : List String
  reducer : String → Event → RedOut
  deriverModels : List String
  applyChanges : String → Val → Sys → Except String Sys
  deriver : String → Event → Sys → DerRes

/-- Result of `_handleEvent`/`_applyEvent`: the processed event, the
database state, and the trace of apply-phase writes. -/
structure HOut where
  event : Event
  sys : Sys
  acts : List Act

/-- `_preprocessor`: runs the preprocessors sequentially; a throw or a
violated `v`/`type` invariant aborts with a `_preprocess_<name>` error on
the event. -/
def preprocessPhase (B : Behavior) : List String → Event → Event
  | [], e => e
  | n :: rest, e =>
    match B.preprocessor n e with
    | .pthrow msg => e.withError (some [("_preprocess_" ++ n, .str (errorToString msg))])
    | .pres ne =>
      let errMsg : Option String :=
        match ne.error with
        | some em => some (errObjToString em)
        | none =>
          if ne.v != e.v then some "preprocessor must retain event version"
          else if ne.type.isEmpty then some "preprocessor must retain event type"
          else none
      match errMsg with
      | some m => e.withError (some [("_preprocess_" ++ n, .str m)])
      | none => preprocessPhase B rest ne

/-- What one reducer contributes: its `result[name]` entry (if any) and the
sub-events pushed onto the shared `events` array. -/
def redEntry : RedOut → Option Obj × List Event
  | .rthrow msg => (some [("error", .str (errorToString msg))], [])
  | .retFalsy => (none, [])
  | .retModel => (none, [])
  | .retObj fields ef =>
    match ef with
    | .notArray => (some [("error", .str ".events is not an array")], [])
    | .arr l => (some fields, l)
    | .absent => (some fields, [])
    | .falsy => (some fields, [])

def reduceEntry (B : Behavior) (e : Event) (n : String) : Option Obj × List Event :=
  redEntry (B.reducer n e)

/-- The `result` object assembled by `_reducer` (entries in reducer-name
order; the source fills it in completion order, which only differs for
duplicate names — impossible for keys of the models object). -/
def reducedResult (B : Behavior) (e : Event) : Obj :=
  B.reducerNames.filterMap fun n => ((reduceEntry B e n).1).map fun o => (n, Val.vobj o)

/-- The `result[n] && result[n].error` test of `_reducer`'s aggregation. -/
def resultError (B : Behavior) (e : Event) (n : String) : Option Val :=
  match objGet (reducedResult B e) n with
  | some (.vobj o) =>
    match objGet o "error" with
    | some v => if v.truthy then some v else none
    | _ => none
  | _ => none

/-- `_reducer`: runs all reducers on the event, collects `result` entries
and pushed sub-events; if any entry carries a truthy `error`, returns the
event tagged with the aggregated `reduce_<name>` error map (the `result`
key of the input event is left as is, and sub-events pushed into a fresh
`events` array are dropped, as in the source when `event.events` was
absent); otherwise attaches `result` and the extended `events`. -/
def reducerPhase (B : Behavior) (e : Event) : Event :=
  let pushed : List Event :=
    B.reducerNames.foldr (fun n acc => (reduceEntry B e n).2 ++ acc) []
  if B.reducerNames.any fun n => (resultError B e n).isSome then
    e.withError
      (some (B.reducerNames.filterMap fun n =>
        (resultError B e n).map fun v => ("reduce_" ++ n, v)))
  else
    (e.withResult (some (reducedResult B e))).withEvents (e.events ++ pushed)

/-- Result of the settle-all over `applyChanges` calls: first error (if
any), final state, and the performed calls in order. -/
structure AOut where
  err : Option String
  sys : Sys
  acts : List Act

/-- Modelled from the spec: `settleAll` (src/lib/settleAll.js is not among
the sources): every item is processed and the first error is raised only
after all of them settled.  Entry order stands in for the settlement order
of the concurrent calls.  A falsy entry value is skipped
(`([name, r]) => r && rwStore[name].applyChanges(r)`); a throwing call is
modelled as leaving the state unchanged. -/
def settleAllApply (B : Behavior) : List (String × Val) → Sys → AOut
  | [], s => ⟨none, s, []⟩
  | (name, r) :: rest, s =>
    if r.truthy then
      match B.applyChanges name r s with
      | .ok s1 =>
        let o := settleAllApply B rest s1
        ⟨o.err, o.sys, .applyC name :: o.acts⟩
      | .error msg =>
        let o := settleAllApply B rest s
        ⟨some msg, o.sys, .applyC name :: o.acts⟩
    else settleAllApply B rest s

/-- Result of the settle-all over deriver calls. -/
structure DOut where
  err : Option String
  sys : Sys
  dispatched : List Event
  acts : List Act

/-- Modelled from the spec: settle-all over the derivers (all run; first
error kept).  Each deriver receives the same event; the sub-events all of
them dispatch are collected and appended to `event.events` afterwards. -/
def settleAllDerive (B : Behavior) (e : Event) : List String → Sys → DOut
  | [], s => ⟨none, s, [], []⟩
  | n :: rest, s =>
    match B.deriver n e s with
    | .dok s1 disp =>
      let o := settleAllDerive B e rest s1
      ⟨o.err, o.sys, disp ++ o.dispatched, .deriveA n :: o.acts⟩
    | .dthrow msg =>
      let o := settleAllDerive B e rest s
      ⟨some msg, o.sys, o.dispatched, .deriveA n :: o.acts⟩

/-- The catch block of `_applyEvent`: move `result` to `failedResult` and
record the `_apply-<phase>` error on the event's error map. -/
def applyFail (e : Event) (phase msg : String) : Event :=
  let e1 := moveFailedResult e
  e1.withError (some (objSet (e1.error.getD []) ("_apply-" ++ phase) (.str (errorToString msg))))

/-- The apply sub-phase of `_applyEvent`: `applyChanges` for every entry of
a non-empty `result` (lodash `isEmpty` lets both an absent and an empty
`result` skip the phase). -/
def applyPhase (B : Behavior) (e : Event) (s : Sys) : AOut :=
  let entries := e.result.getD []
  if entries.isEmpty then ⟨none, s, []⟩ else settleAllApply B entries s

/-- `_applyEvent`: apply the reducer results, then (for the top-level
event) persist `user_version = event.v`, then run the derivers; any error
is captured as `_apply-<phase>` and the phases after it do not run.
(`setWritable` toggling and a failing `PRAGMA` write are not modelled.) -/
def applyEvent (B : Behavior) (e : Event) (updateVersion : Bool) (s : Sys) : HOut :=
  let a := applyPhase B e s
  match a.err with
  | some msg => ⟨applyFail e "apply" msg, a.sys, a.acts⟩
  | none =>
    let s2 := if updateVersion then { a.sys with userVersion := e.v.getD 0 } else a.sys
    let vActs := if updateVersion then [Act.setV (e.v.getD 0)] else []
    if e.error.isNone && !B.deriverModels.isEmpty then
      let d := settleAllDerive B e B.deriverModels s2
      let e1 := e.withEvents (e.events ++ d.dispatched)
      match d.err with
      | some msg => ⟨applyFail e1 "derive" msg, d.sys, a.acts ++ vActs ++ d.acts⟩
      | none => ⟨e1, d.sys, a.acts ++ vActs ++ d.acts⟩
    else ⟨e, s2, a.acts ++ vActs⟩

/-- Result of the sub-event loop of `_handleEvent`. -/
structure SubsOut where
  events : List Event
  failedAt : Option Nat
  sys : Sys
  acts : List Act

/-- The sub-event loop of `_handleEvent` (lines 650-670), parameterized by
the handler `h` used on each sub-event (`_handleEvent` at `depth + 1`):
iterate `event.events` in order, handle `{...subEvent, v: event.v}`,
delete `v` from the finished record and store it back; on the first
sub-event that ends in error, move its `result` to `failedResult` and stop
with that index, leaving the remaining sub-events untouched. -/
def handleSubs (h : Event → Sys → HOut) :
    List Event → Option Nat → Nat → Sys → SubsOut
  | [], _, _, s => ⟨[], none, s, []⟩
  | sub :: rest, pv, i, s =>
    let o := h (sub.withV pv) s
    let d1 := o.event.withV none
    if d1.error.isSome then
      let d2 := moveFailedResult d1
      ⟨d2 :: rest, some i, o.sys, o.acts⟩
    else
      let r := handleSubs h rest pv (i + 1) o.sys
      ⟨d1 :: r.events, r.failedAt, r.sys, o.acts ++ r.acts⟩

/-- The tail of `_handleEvent` after a successful apply: run the sub-event
loop and, if sub-event `i` failed, set the parent's error to
`{_handle: "subevent i failed"}`. -/
def subEventsPhase (h : Event → Sys → HOut) (e3 : Event) (s : Sys) : HOut :=
  let r := handleSubs h e3.events e3.v 0 s
  match r.failedAt with
  | some k =>
    ⟨(e3.withEvents r.events).withError
      (some [("_handle", .str ("subevent " ++ toString k ++ " failed"))]),
     r.sys, r.acts⟩
  | none => ⟨e3.withEvents r.events, r.sys, r.acts⟩

/-- The `{...origEvent, error: {...origEvent.error, _handle: "events
recursing too deep"}}` guard result. -/
def guardFail (e : Event) : Event :=
  e.withError (some (objSet (e.error.getD []) "_handle" (.str "events recursing too deep")))

/-- `_handleEvent(origEvent, depth)`: recursion guard, then
preprocess → reduce → apply → sub-events.  The source passes `origEvent`
(not the preprocessed event) to `_reducer`; this embedding mirrors that.
`fuel` bounds the sub-event recursion only so the definition is
structural: along real executions `fuel = 102 - depth` (starting from
`fuel = 102`, `depth = 0`), so fuel runs out only at `depth = 102`, where
the `depth > 100` guard yields the same result — the extra `fuel = 0`
equation therefore agrees with the source on every reachable call. -/
def handleEvent (B : Behavior) : Nat → Event → Nat → Sys → HOut
  | 0, origEvent, _, s => ⟨guardFail origEvent, s, []⟩
  | fuel + 1, origEvent, depth, s =>
    if depth > 100 then ⟨guardFail origEvent, s, []⟩
    else
      let e1 := preprocessPhase B B.preprocModels origEvent
      if e1.error.isSome then ⟨e1, s, []⟩
      else
        let e2 := reducerPhase B origEvent
        if e2.error.isSome then ⟨e2, s, []⟩
        else
          let o := applyEvent B e2 (depth == 0) s
          if o.event.error.isSome then o
          else
            let r := subEventsPhase
              (fun ev sy => handleEvent B fuel ev (depth + 1) sy) o.event o.sys
            ⟨r.event, r.sys, o.acts ++ r.acts⟩

/-- `_handleEvent(event)` as `_waitForEvent` invokes it (depth 0). -/
def handleTop (B : Behavior) (e : Event) (s : Sys) : HOut :=
  handleEvent B 102 e 0 s

/-- Engine-level state seen by the polling loop: the RW database plus the
queue table (rows keyed by `v`; the queue may live in the same file, but no
queue write happens under the `handle` savepoint, so it is kept apart). -/
structure EsdbState where
  sys : Sys
  queue : List Event

/-- `queue.set(event)`: upsert of the row keyed by `v`. -/
def queueSet (q : List Event) (e : Event) : List Event :=
  if q.any (fun r => r.v == e.v) then q.map (fun r => if r.v == e.v then e else r)
  else q ++ [e]

/-- The `rwDb.withTransaction` body of `_waitForEvent` (lines 478-503):
skip the event if another process already handled it, clear any previous
`error`/`result`, take the `handle` savepoint, run the pipeline; on error
roll back to the savepoint (restoring store and `user_version`) and move
`result` to `failedResult`; finally write the outcome into the queue row.
The surrounding `.catch` (errors thrown by the store machinery itself,
reported as `_SQLite`) is outside this model. -/
def waitForEventTxn (B : Behavior) (event : Event) (st : EsdbState) :
    Option Event × EsdbState :=
  if event.v.getD 0 ≤ st.sys.userVersion then (none, st)
  else
    let cleared := (event.withError none).withResult none
    let saved := st.sys
    let o := handleTop B cleared st.sys
    if o.event.error.isSome then
      let r2 := moveFailedResult o.event
      (some r2, ⟨saved, queueSet st.queue r2⟩)
    else
      (some o.event, ⟨o.sys, queueSet st.queue o.event⟩)

/-- What `_triggerEventListeners` does, in order: emitter calls, waiter
completions and the scheduled re-reads for stale waiters.  `emitHandled` is
part of the vocabulary for the `handled` observer event; the source never
produces it (see the C5 analysis). -/
inductive NotifyAct where
  | sweepGet (v : Nat)
  | emitError
  | emitResult
  | emitHandled
  | resolveWaiter (v : Nat)
  | rejectWaiter (v : Nat)
deriving DecidableEq

/-- `_triggerEventListeners(event)`: remove the waiter at `event.v`; when
`event.v ≥ _maxWaitingFor`, remove every waiter at `v ≤ event.v` and
schedule a `queue.get(v)` re-read for it; then emit `error` (only if a
listener exists) for an error event, else emit `result` and resolve the
removed waiter.  The state of `_waitingFor` is the list of registered
versions; the returned actions are in program order. -/
def triggerEventListeners (waitingFor : List Nat) (maxWaitingFor : Nat)
    (hasErrorListener : Bool) (event : Event) : List Nat × List NotifyAct :=
  let ev := event.v.getD 0
  let hadWaiter := waitingFor.contains ev
  let w1 := waitingFor.filter (fun v => v != ev)
  let (w2, sweeps) :=
    if ev ≥ maxWaitingFor then
      (w1.filter (fun v => decide (ev < v)),
       (w1.filter (fun v => v ≤ ev)).map NotifyAct.sweepGet)
    else (w1, ([] : List NotifyAct))
  let emits : List NotifyAct :=
    if event.error.isSome then
      if hasErrorListener then [.emitError] else []
    else
      .emitResult :: (if hadWaiter then [.resolveWaiter ev] else [])
  (w2, sweeps ++ emits)

/-- `MAX_RETRY = 38 // this is an hour`. -/
def MAX_RETRY : Nat := 38

/-- Observable steps of the backoff prelude of a `_waitForEvent`
iteration. -/
inductive LoopAct where
  | closeDb
  | closeRwDb
  | closeQueueDb
  | sleep (ms : Nat)
  | fatal (msg : String)
deriving DecidableEq

/-- The `if (errorCount)` prelude of a `_waitForEvent` iteration (lines
452-460): with a positive error count, give up past `MAX_RETRY` with the
fatal message, otherwise close each store handle whose file is not
`:memory:` and sleep `5000 * errorCount` milliseconds. -/
def backoffStep (errorCount lastV : Nat) (dbFile rwFile queueFile : String) :
    List LoopAct :=
  if errorCount = 0 then []
  else if errorCount > MAX_RETRY then
    [.fatal ("Giving up on processing event " ++ toString (lastV + 1))]
  else
    (if dbFile ≠ ":memory:" then [LoopAct.closeDb] else []) ++
    (if rwFile ≠ ":memory:" then [LoopAct.closeRwDb] else []) ++
    (if queueFile ≠ ":memory:" then [LoopAct.closeQueueDb] else []) ++
    [LoopAct.sleep (5000 * errorCount)]

/-- A model definition as the ESDB constructor consumes it: which of the
capabilities it ends up with (after the `Model` static fallbacks). -/
structure ModelDef where
  hasPreprocessor : Bool := false
  hasReducer : Bool := false
  hasDeriver : Bool := false

/-- `DB.addModel` (src/src/DB/DB.js lines 76-85): registering a model whose
name is already in the store throws; the store tracks names in
registration order. -/
def addModel (store : List String) (name : String) : Except String (List String) :=
  if name ∈ store then .error ("Model name " ++ name ++ " was already added")
  else .ok (store ++ [name])

/-- The model-registration loop of the ESDB constructor (lines 184-268):
for each entry `rwDb.addModel` runs first, then the capability check
throws unless at least one of reducer/deriver/preprocessor is present.
(The RO-mirror `addModel` on a second store sees the same name sequence
and cannot fail first; it is not modelled separately.) -/
def constructModels : List String → List (String × ModelDef) → Except String (List String)
  | store, [] => .ok store
  | store, (name, d) :: rest =>
    match addModel store name with
    | .error e => .error e
    | .ok store1 =>
      if d.hasDeriver || d.hasPreprocessor || d.hasReducer then
        constructModels store1 rest
      else .error "At least one reducer, deriver or preprocessor required"

/-! ## Verified claims -/

/-- A model registry with no models at all (used to instantiate claims at
concrete inputs). -/
def B0 : Behavior where
  preprocModels := []
  preprocessor := fun _ e => .pres e
  reducerNames := []
  reducer := fun _ _ => .retFalsy
  deriverModels := []
  applyChanges := fun _ _ s => .ok s
  deriver := fun _ _ s => .dok s []

/-- C7: an event handled at recursion depth above 100 runs no phase — the
result does not depend on the registered models, the database state is
untouched, no apply-phase write happens — and the event comes back with
error key `_handle` set to "events recursing too deep". -/
theorem claim_C7 (B : Behavior) (fuel : Nat) (e : Event) (d : Nat) (s : Sys)
    (hd : 100 < d) :
    handleEvent B fuel e d s =
      ⟨e.withError (some (objSet (e.error.getD []) "_handle"
        (.str "events recursing too deep"))), s, []⟩ := by
  cases fuel <;> simp [handleEvent, guardFail, hd]

/-- C7 witness: the guard at the concrete depth 101. -/
theorem claim_C7_witness :
    100 < 101 ∧
    handleEvent B0 5 (mkEvent (some 1) "T") 101 ⟨[], 0⟩ =
      ⟨(mkEvent (some 1) "T").withError
        (some (objSet (((mkEvent (some 1) "T").error).getD []) "_handle"
          (.str "events recursing too deep"))), ⟨[], 0⟩, []⟩ :=
  ⟨by decide, claim_C7 B0 5 (mkEvent (some 1) "T") 101 ⟨[], 0⟩ (by decide)⟩

/-- C8 (amended): a loop iteration entered with a positive error count
closes each of the RO, RW and queue handles whose file is not `:memory:`
and sleeps `5000 * errorCount` ms; past `MAX_RETRY = 38` it instead fails
fatally with "Giving up on processing event (lastV+1)". -/
theorem claim_C8 (ec lastV : Nat) (f1 f2 f3 : String) (hpos : 0 < ec) :
    (ec ≤ MAX_RETRY → f1 ≠ ":memory:" → f2 ≠ ":memory:" → f3 ≠ ":memory:" →
      backoffStep ec lastV f1 f2 f3 =
        [.closeDb, .closeRwDb, .closeQueueDb, .sleep (5000 * ec)]) ∧
    (MAX_RETRY < ec →
      backoffStep ec lastV f1 f2 f3 =
        [.fatal ("Giving up on processing event " ++ toString (lastV + 1))]) := by
  constructor
  · intro hle h1 h2 h3
    have h0 : ¬ ec = 0 := by omega
    have hmr : ¬ ec > MAX_RETRY := by omega
    simp [backoffStep, h0, hmr, h1, h2, h3]
  · intro hgt
    have h0 : ¬ ec = 0 := by omega
    simp [backoffStep, h0, hgt]

/-- C8 counterexample: with `:memory:` stores (where `close()` is skipped:
`if (this.db.file !== ':memory:') this.db.close()`), an iteration with one
consecutive error sleeps but closes no handle, contrary to the claim that
the handles are closed on every such iteration. -/
theorem claim_C8_counterexample :
    backoffStep 1 0 ":memory:" ":memory:" ":memory:" = [.sleep 5000] := by decide

/-- C8 witness: backoff at error count 2 and fatal surrender at 39. -/
theorem claim_C8_witness :
    (0 < 2 ∧ backoffStep 2 7 "a.db" "a.db" "q.db" =
      [.closeDb, .closeRwDb, .closeQueueDb, .sleep 10000]) ∧
    (0 < 39 ∧ backoffStep 39 7 "a.db" "a.db" "q.db" =
      [.fatal "Giving up on processing event 8"]) :=
  ⟨⟨by decide, (claim_C8 2 7 "a.db" "a.db" "q.db" (by decide)).1
      (by decide) (by decide) (by decide) (by decide)⟩,
   ⟨by decide, (claim_C8 39 7 "a.db" "a.db" "q.db" (by decide)).2 (by decide)⟩⟩

theorem constructModels_ok_nodup :
    ∀ (ms : List (String × ModelDef)) (store st : List String),
      constructModels store ms = .ok st →
      (∀ n ∈ ms.map Prod.fst, n ∉ store) ∧ (ms.map Prod.fst).Nodup := by
  intro ms
  induction ms with
  | nil => simp
  | cons p rest ih =>
    intro store st h
    obtain ⟨name, d⟩ := p
    simp only [constructModels, addModel] at h
    by_cases hc : name ∈ store
    · rw [if_pos hc] at h; cases h
    · rw [if_neg hc] at h
      have h2 : (if (d.hasDeriver || d.hasPreprocessor || d.hasReducer) then
          constructModels (store ++ [name]) rest
        else Except.error "At least one reducer, deriver or preprocessor required")
          = Except.ok st := h
      clear h
      by_cases hd : (d.hasDeriver || d.hasPreprocessor || d.hasReducer) = true
      · rw [if_pos hd] at h2
        obtain ⟨h1, h3⟩ := ih (store ++ [name]) st h2
        refine ⟨?_, ?_⟩
        · intro n hn
          simp only [List.map_cons, List.mem_cons] at hn
          rcases hn with rfl | hn'
          · exact hc
          · intro hmem
            exact (h1 n hn') (List.mem_append_left _ hmem)
        · simp only [List.map_cons, List.nodup_cons]
          refine ⟨?_, h3⟩
          intro hm
          exact (h1 name hm) (List.mem_append_right _ (List.mem_singleton.mpr rfl))
      · rw [if_neg hd] at h2; cases h2

/-- C10 (amended): registering two models with the same name makes engine
construction fail (`DB.addModel` throws); the reserved name `metadata` is
not rejected by this version of the constructor (see the
counterexample). -/
theorem claim_C10 (ms : List (String × ModelDef))
    (h : ¬ (ms.map Prod.fst).Nodup) :
    ∃ msg, constructModels [] ms = .error msg := by
  cases hcm : constructModels [] ms with
  | error m => exact ⟨m, rfl⟩
  | ok st => exact absurd (constructModels_ok_nodup ms [] st hcm).2 h

/-- C10 counterexample: the constructor accepts a model registered under
the name `metadata` (the claim states construction must fail). -/
theorem claim_C10_counterexample :
    constructModels [] [("metadata", {hasReducer := true})] = .ok ["metadata"] := rfl

/-- C10 witness: duplicate names make construction fail. -/
theorem claim_C10_witness :
    ¬ (([("a", ({hasReducer := true} : ModelDef)),
        ("a", ({hasDeriver := true} : ModelDef))].map Prod.fst).Nodup) ∧
    ∃ msg, constructModels []
      [("a", ({hasReducer := true} : ModelDef)),
       ("a", ({hasDeriver := true} : ModelDef))] = .error msg :=
  ⟨by decide, claim_C10 _ (by decide)⟩

/-- A committed event record with `error` set, version 1, as
`_triggerEventListeners` receives it. -/
def evC2err : Event :=
  (mkEvent (some 1) "T").withError (some [("reduce_m", .str "boom")])

/-- C2 failing run: an event commits with `error` set while a waiter is
registered for its version; `_triggerEventListeners` removes the waiter
(the returned `_waitingFor` is empty) and only emits `error` — it never
rejects the waiter (`o.reject` is created by `handledVersion` but never
invoked), so the dispatcher's future stays pending instead of rejecting
with the event record. -/
theorem claim_C2_code :
    triggerEventListeners [1] 1 true evC2err = ([], [.emitError]) := by decide

/-- A successfully committed event record, version 2. -/
def evC5ok : Event := mkEvent (some 2) "T"

/-- Another committed error event, version 3, with an `error` listener
present. -/
def evC5err : Event :=
  (mkEvent (some 3) "T").withError (some [("_apply-apply", .str "x")])

/-- C5 failing run: for a successful event the source emits `result` and
resolves the waiter, for a failed event it emits `error` (listener
present); in neither case does a `handled` emission occur — the action
vocabulary contains `emitHandled`, and no run produces it. -/
theorem claim_C5_code :
    triggerEventListeners [2] 2 true evC5ok = ([], [.emitResult, .resolveWaiter 2]) ∧
    triggerEventListeners [3] 3 true evC5err = ([], [.emitError]) ∧
    NotifyAct.emitHandled ∉ (triggerEventListeners [2] 2 true evC5ok).2 ∧
    NotifyAct.emitHandled ∉ (triggerEventListeners [3] 3 true evC5err).2 := by decide

/-- A registry whose single preprocessor returns a fresh event object with
a changed (still non-empty) `type` and the same `v`, and whose single
reducer records the `type` of the event it is given. -/
def B4 : Behavior where
  preprocModels := ["p"]
  preprocessor := fun _ e => .pres (e.withType "B")
  reducerNames := ["m"]
  reducer := fun _ e => .retObj [("seen", .str e.type)] .absent
  deriverModels := []
  applyChanges := fun _ _ s => .ok s
  deriver := fun _ _ s => .dok s []

def e4 : Event := mkEvent (some 1) "A"

/-- C4 failing run: the preprocessor successfully turns the event's type
from "A" into "B" (a returned new object, `v` retained, type non-empty),
yet the pipeline's reducer sees type "A": `_handleEvent` passes
`origEvent`, not the preprocessed event, to `_reducer`.  Reducing the
preprocessed event would have recorded "B". -/
theorem claim_C4_code :
    (handleTop B4 e4 ⟨[], 0⟩).event.result = some [("m", .vobj [("seen", .str "A")])] ∧
    (preprocessPhase B4 B4.preprocModels e4).error = none ∧
    (preprocessPhase B4 B4.preprocModels e4).type = "B" ∧
    reduceEntry B4 (preprocessPhase B4 B4.preprocModels e4) "m" =
      (some [("seen", .str "B")], []) :=
  ⟨rfl, rfl, rfl, rfl⟩

/-- C1: in the transaction body of `_waitForEvent`, an event whose pipeline
run ends with `error` set (in any phase — the hypothesis only requires the
handled event to carry an error) is rolled back to the `handle` savepoint:
the final database state (store and `user_version`) equals the pre-event
state, the event's `result` is moved to `failedResult`, and the outcome —
with `error` set — is upserted into the queue row. -/
theorem claim_C1 (B : Behavior) (event : Event) (st : EsdbState) (n : Nat)
    (hv : event.v = some n) (hgt : st.sys.userVersion < n)
    (herr : (handleTop B ((event.withError none).withResult none) st.sys).event.error.isSome
      = true) :
    (waitForEventTxn B event st).1 =
      some (moveFailedResult
        (handleTop B ((event.withError none).withResult none) st.sys).event) ∧
    (waitForEventTxn B event st).2.sys = st.sys ∧
    (waitForEventTxn B event st).2.queue =
      queueSet st.queue (moveFailedResult
        (handleTop B ((event.withError none).withResult none) st.sys).event) ∧
    (moveFailedResult
        (handleTop B ((event.withError none).withResult none) st.sys).event).error.isSome
      = true ∧
    (moveFailedResult
        (handleTop B ((event.withError none).withResult none) st.sys).event).result = none ∧
    ((handleTop B ((event.withError none).withResult none) st.sys).event.result.isSome = true →
      (moveFailedResult
        (handleTop B ((event.withError none).withResult none) st.sys).event).failedResult =
      (handleTop B ((event.withError none).withResult none) st.sys).event.result) := by
  have hle : ¬ (event.v.getD 0 ≤ st.sys.userVersion) := by
    rw [hv]; simpa using hgt
  have heq : waitForEventTxn B event st =
      (some (moveFailedResult
         (handleTop B ((event.withError none).withResult none) st.sys).event),
       ⟨st.sys, queueSet st.queue (moveFailedResult
         (handleTop B ((event.withError none).withResult none) st.sys).event)⟩) := by
    unfold waitForEventTxn
    rw [if_neg hle]
    simp [herr]
  refine ⟨by rw [heq], by rw [heq], by rw [heq], ?_, by simp, ?_⟩
  · rw [Event.error_moveFailedResult]; exact herr
  · intro hres
    exact Event.failedResult_moveFailedResult _ hres

/-- A registry with a single reducer that throws. -/
def B1 : Behavior where
  preprocModels := []
  preprocessor := fun _ e => .pres e
  reducerNames := ["m"]
  reducer := fun _ _ => .rthrow "boom"
  deriverModels := []
  applyChanges := fun _ _ s => .ok s
  deriver := fun _ _ s => .dok s []

def e1w : Event := mkEvent (some 1) "T"

def st1 : EsdbState := ⟨⟨[("m", .vnull)], 0⟩, []⟩

/-- C1 witness: a throwing reducer on the concrete state; the transaction
leaves the database (store and `user_version`) exactly as before. -/
theorem claim_C1_witness :
    (st1.sys.userVersion < 1 ∧
     (handleTop B1 ((e1w.withError none).withResult none) st1.sys).event.error.isSome
       = true) ∧
    (waitForEventTxn B1 e1w st1).2.sys = st1.sys :=
  ⟨⟨by decide, by decide⟩,
   (claim_C1 B1 e1w st1 1 rfl (by decide) (by decide)).2.1⟩

theorem objGet_cons (k : String) (x : Val) (o : Obj) (n : String) :
    objGet ((k, x) :: o) n = if k == n then some x else objGet o n := by
  by_cases h : (k == n) = true <;> simp [objGet, List.find?_cons, h]

theorem objGet_reducedResult (B : Behavior) (e : Event) :
    ∀ (l : List String) (n : String),
      objGet (l.filterMap fun m => ((reduceEntry B e m).1).map fun o => (m, Val.vobj o)) n
        = if n ∈ l then ((reduceEntry B e n).1).map Val.vobj else none := by
  intro l
  induction l with
  | nil => intro n; simp [objGet]
  | cons m rest ih =>
    intro n
    cases hrm : (reduceEntry B e m).1 with
    | none =>
      have hstep :
          (List.filterMap (fun m => ((reduceEntry B e m).1).map fun o => (m, Val.vobj o))
            (m :: rest))
          = List.filterMap (fun m => ((reduceEntry B e m).1).map fun o => (m, Val.vobj o))
              rest :=
        List.filterMap_cons_none (by simp [hrm])
      rw [hstep, ih]
      by_cases hmn : n = m
      · subst hmn; simp [hrm]
      · simp [List.mem_cons, hmn]
    | some o =>
      have hstep :
          (List.filterMap (fun m => ((reduceEntry B e m).1).map fun o => (m, Val.vobj o))
            (m :: rest))
          = (m, Val.vobj o) ::
            List.filterMap (fun m => ((reduceEntry B e m).1).map fun o => (m, Val.vobj o))
              rest :=
        List.filterMap_cons_some (by simp [hrm])
      rw [hstep, objGet_cons, ih]
      by_cases hmn : m = n
      · subst hmn; simp [hrm]
      · have hb : (m == n) = false := by simp [hmn]
        have hnm : ¬ n = m := fun h => hmn h.symm
        simp [hb, List.mem_cons, hnm]

/-- C9: in the reduce phase, when at least one reducer fails (its `result`
entry carries a truthy `error`), the returned event's `error` map
aggregates exactly the `reduce_<name>` entries of the failing reducers and
the returned event carries no `result`; a throwing reducer contributes the
entry `{error: errorToString(thrown)}` and hence fails; a reducer
returning a falsy value or the model itself has no `result` entry and no
error. -/
theorem claim_C9 (B : Behavior) (e : Event) (he : e.result = none)
    (hfail : (B.reducerNames.any fun n => (resultError B e n).isSome) = true) :
    (reducerPhase B e).error =
      some (B.reducerNames.filterMap fun n =>
        (resultError B e n).map fun x => ("reduce_" ++ n, x)) ∧
    (reducerPhase B e).result = none ∧
    (∀ n msg, n ∈ B.reducerNames → B.reducer n e = .rthrow msg →
      objGet (reducedResult B e) n =
        some (.vobj [("error", .str (errorToString msg))])) ∧
    (∀ n msg, n ∈ B.reducerNames → B.reducer n e = .rthrow msg →
      (errorToString msg).isEmpty = false →
      resultError B e n = some (.str (errorToString msg))) ∧
    (∀ n, n ∈ B.reducerNames →
      (B.reducer n e = .retFalsy ∨ B.reducer n e = .retModel) →
      objGet (reducedResult B e) n = none ∧ resultError B e n = none) := by
  refine ⟨?_, ?_, ?_, ?_, ?_⟩
  · simp [reducerPhase, hfail]
  · simp [reducerPhase, hfail, he]
  · intro n msg hn hr
    rw [reducedResult, objGet_reducedResult B e B.reducerNames n, if_pos hn,
      reduceEntry, hr, redEntry]
    rfl
  · intro n msg hn hr hne
    have hget : objGet (reducedResult B e) n =
        some (.vobj [("error", .str (errorToString msg))]) := by
      rw [reducedResult, objGet_reducedResult B e B.reducerNames n, if_pos hn,
        reduceEntry, hr, redEntry]
      rfl
    rw [resultError, hget]
    simp [objGet_cons, Val.truthy, hne]
  · intro n hn hr
    have hget : objGet (reducedResult B e) n = none := by
      rcases hr with h | h <;>
        rw [reducedResult, objGet_reducedResult B e B.reducerNames n, if_pos hn,
          reduceEntry, h, redEntry] <;> rfl
    refine ⟨hget, ?_⟩
    rw [resultError, hget]

/-- A registry with a throwing reducer `a`, a successful reducer `b` and a
no-change reducer `c`. -/
def B9 : Behavior where
  preprocModels := []
  preprocessor := fun _ e => .pres e
  reducerNames := ["a", "b", "c"]
  reducer := fun n _ =>
    if n == "a" then .rthrow "bad a"
    else if n == "b" then .retObj [("set", .vnum 1)] .absent
    else .retFalsy
  deriverModels := []
  applyChanges := fun _ _ s => .ok s
  deriver := fun _ _ s => .dok s []

def e9 : Event := mkEvent (some 3) "T"

/-- C9 witness: with the concrete registry, the reduce phase aggregates
exactly the thrower's error and drops the result. -/
theorem claim_C9_witness :
    ((B9.reducerNames.any fun n => (resultError B9 e9 n).isSome) = true) ∧
    (reducerPhase B9 e9).result = none ∧
    (reducerPhase B9 e9).error = some [("reduce_a", .str "bad a")] :=
  ⟨by decide, (claim_C9 B9 e9 rfl (by decide)).2.1, rfl⟩

theorem settleAllApply_acts_shape (B : Behavior) :
    ∀ (l : List (String × Val)) (s : Sys),
      ∀ a ∈ (settleAllApply B l s).acts, ∃ nm, a = Act.applyC nm := by
  intro l
  induction l with
  | nil => intro s a ha; simp [settleAllApply] at ha
  | cons p rest ih =>
    intro s a ha
    obtain ⟨name, r⟩ := p
    simp only [settleAllApply] at ha
    split at ha
    · split at ha
      · rcases List.mem_cons.mp ha with h | h
        · exact ⟨name, h⟩
        · exact ih _ a h
      · rcases List.mem_cons.mp ha with h | h
        · exact ⟨name, h⟩
        · exact ih _ a h
    · exact ih _ a ha

theorem applyPhase_acts_shape (B : Behavior) (e : Event) (s : Sys) :
    ∀ a ∈ (applyPhase B e s).acts, ∃ nm, a = Act.applyC nm := by
  intro a ha
  simp only [applyPhase] at ha
  split at ha
  · simp at ha
  · exact settleAllApply_acts_shape B _ s a ha

theorem settleAllDerive_acts_shape (B : Behavior) (e : Event) :
    ∀ (l : List String) (s : Sys),
      ∀ a ∈ (settleAllDerive B e l s).acts, ∃ nm, a = Act.deriveA nm := by
  intro l
  induction l with
  | nil => intro s a ha; simp [settleAllDerive] at ha
  | cons n rest ih =>
    intro s a ha
    simp only [settleAllDerive] at ha
    split at ha
    · rcases List.mem_cons.mp ha with h | h
      · exact ⟨n, h⟩
      · exact ih _ a h
    · rcases List.mem_cons.mp ha with h | h
      · exact ⟨n, h⟩
      · exact ih _ a h

theorem noSetV_applyEvent (B : Behavior) (e : Event) (s : Sys) (m : Nat) :
    Act.setV m ∉ (applyEvent B e false s).acts := by
  intro hmem
  simp only [applyEvent, Bool.false_eq_true, if_false, List.append_nil] at hmem
  split at hmem
  · obtain ⟨nm, hnm⟩ := applyPhase_acts_shape B e s _ hmem
    cases hnm
  · split at hmem
    · split at hmem
      · rcases List.mem_append.mp hmem with h1 | h1
        · obtain ⟨nm, hnm⟩ := applyPhase_acts_shape B e s _ h1
          cases hnm
        · obtain ⟨nm, hnm⟩ := settleAllDerive_acts_shape B e _ _ _ h1
          cases hnm
      · rcases List.mem_append.mp hmem with h1 | h1
        · obtain ⟨nm, hnm⟩ := applyPhase_acts_shape B e s _ h1
          cases hnm
        · obtain ⟨nm, hnm⟩ := settleAllDerive_acts_shape B e _ _ _ h1
          cases hnm
    · obtain ⟨nm, hnm⟩ := applyPhase_acts_shape B e s _ hmem
      cases hnm

theorem handleSubs_noSetV (h : Event → Sys → HOut)
    (hh : ∀ (ev : Event) (sy : Sys) (m : Nat), Act.setV m ∉ (h ev sy).acts) :
    ∀ (subs : List Event) (pv : Option Nat) (i : Nat) (s : Sys) (m : Nat),
      Act.setV m ∉ (handleSubs h subs pv i s).acts := by
  intro subs
  induction subs with
  | nil => intro pv i s m hmem; simp [handleSubs] at hmem
  | cons sub rest ih =>
    intro pv i s m hmem
    simp only [handleSubs] at hmem
    split at hmem
    · exact hh _ _ m hmem
    · simp only [SubsOut.acts] at hmem
      rcases List.mem_append.mp hmem with h1 | h1
      · exact hh _ _ m h1
      · exact ih _ _ _ m h1

theorem subEventsPhase_acts (h : Event → Sys → HOut) (e3 : Event) (s : Sys) :
    (subEventsPhase h e3 s).acts = (handleSubs h e3.events e3.v 0 s).acts := by
  simp only [subEventsPhase]
  split <;> rfl

theorem handleEvent_noSetV (B : Behavior) :
    ∀ (fuel : Nat) (e : Event) (d : Nat) (s : Sys) (m : Nat),
      0 < d → Act.setV m ∉ (handleEvent B fuel e d s).acts := by
  intro fuel
  induction fuel with
  | zero => intro e d s m _ hmem; simp [handleEvent] at hmem
  | succ fuel ih =>
    intro e d s m hd hmem
    have hd0 : (d == 0) = false := by
      rw [beq_eq_false_iff_ne]; omega
    simp only [handleEvent, hd0] at hmem
    split at hmem
    · simp at hmem
    · split at hmem
      · simp at hmem
      · split at hmem
        · simp at hmem
        · split at hmem
          · exact noSetV_applyEvent B _ s m hmem
          · simp only [HOut.acts] at hmem
            rcases List.mem_append.mp hmem with h1 | h1
            · exact noSetV_applyEvent B _ s m h1
            · rw [subEventsPhase_acts] at h1
              exact handleSubs_noSetV _
                (fun ev sy mm => ih ev (d + 1) sy mm (Nat.succ_pos d))
                _ _ _ _ m h1

/-- C3: (a) for a top-level event (`updateVersion = true`, i.e. depth 0)
with no error and a successful apply sub-phase, the apply trace is exactly
the `applyChanges` calls, then the single `user_version := event.v` write,
then only deriver runs; (b) at any depth above 0 (sub-events), no
`user_version` write ever appears in the trace. -/
theorem claim_C3 (B : Behavior) :
    (∀ (e : Event) (s : Sys) (n : Nat), e.v = some n → e.error = none →
      (applyPhase B e s).err = none →
      ∃ dActs, (applyEvent B e true s).acts =
          (applyPhase B e s).acts ++ Act.setV n :: dActs ∧
        (∀ a ∈ (applyPhase B e s).acts, ∃ nm, a = Act.applyC nm) ∧
        (∀ a ∈ dActs, ∃ nm, a = Act.deriveA nm)) ∧
    (∀ (fuel : Nat) (e : Event) (d : Nat) (s : Sys) (m : Nat),
      0 < d → Act.setV m ∉ (handleEvent B fuel e d s).acts) := by
  constructor
  · intro e s n hv he ha
    by_cases hdm : B.deriverModels.isEmpty = true
    · refine ⟨[], ?_, applyPhase_acts_shape B e s, by simp⟩
      simp [applyEvent, ha, hv, he, hdm]
    · have hdm' : B.deriverModels.isEmpty = false := by
        cases hx : B.deriverModels.isEmpty
        · rfl
        · exact absurd hx hdm
      refine ⟨(settleAllDerive B e B.deriverModels
          { (applyPhase B e s).sys with userVersion := n }).acts, ?_, 
        applyPhase_acts_shape B e s, ?_⟩
      · cases hde : (settleAllDerive B e B.deriverModels
            { (applyPhase B e s).sys with userVersion := n }).err with
        | none => simp [applyEvent, ha, hv, he, hdm', hde]
        | some msg => simp [applyEvent, ha, hv, he, hdm', hde]
      · exact settleAllDerive_acts_shape B e _ _
  · exact handleEvent_noSetV B

/-- A registry with one reducer producing a change and one deriver. -/
def B3 : Behavior where
  preprocModels := []
  preprocessor := fun _ e => .pres e
  reducerNames := ["m"]
  reducer := fun _ _ => .retObj [("set", .vnum 5)] .absent
  deriverModels := ["m"]
  applyChanges := fun _ _ s => .ok s
  deriver := fun _ _ s => .dok s []

/-- An event carrying a reducer result, as `_applyEvent` receives it. -/
def e3e : Event :=
  (mkEvent (some 4) "T").withResult (some [("m", .vobj [("set", .vnum 5)])])

/-- C3 witness: the concrete trace at depth 0 and the absence of a version
write at depth 1. -/
theorem claim_C3_witness :
    ((applyPhase B3 e3e ⟨[], 0⟩).err = none ∧
     ∃ dActs, (applyEvent B3 e3e true ⟨[], 0⟩).acts =
         (applyPhase B3 e3e ⟨[], 0⟩).acts ++ Act.setV 4 :: dActs ∧
       (∀ a ∈ (applyPhase B3 e3e ⟨[], 0⟩).acts, ∃ nm, a = Act.applyC nm) ∧
       (∀ a ∈ dActs, ∃ nm, a = Act.deriveA nm)) ∧
    (0 < 1 ∧ Act.setV 9 ∉ (handleEvent B3 7 e3e 1 ⟨[], 0⟩).acts) :=
  ⟨⟨rfl, (claim_C3 B3).1 e3e ⟨[], 0⟩ 4 rfl rfl rfl⟩,
   ⟨by decide, (claim_C3 B3).2 7 e3e 1 ⟨[], 0⟩ 9 (by decide)⟩⟩

theorem handleSubs_nil (h : Event → Sys → HOut) (pv : Option Nat) (i : Nat) (s : Sys) :
    handleSubs h [] pv i s = ⟨[], none, s, []⟩ := rfl

theorem handleSubs_cons (h : Event → Sys → HOut) (sub : Event) (rest : List Event)
    (pv : Option Nat) (i : Nat) (s : Sys) :
    handleSubs h (sub :: rest) pv i s =
      if ((h (sub.withV pv) s).event.withV none).error.isSome then
        ⟨moveFailedResult ((h (sub.withV pv) s).event.withV none) :: rest, some i,
         (h (sub.withV pv) s).sys, (h (sub.withV pv) s).acts⟩
      else
        ⟨((h (sub.withV pv) s).event.withV none) ::
           (handleSubs h rest pv (i + 1) (h (sub.withV pv) s).sys).events,
         (handleSubs h rest pv (i + 1) (h (sub.withV pv) s).sys).failedAt,
         (handleSubs h rest pv (i + 1) (h (sub.withV pv) s).sys).sys,
         (h (sub.withV pv) s).acts ++
           (handleSubs h rest pv (i + 1) (h (sub.withV pv) s).sys).acts⟩ := rfl

theorem handleSubs_v_none (h : Event → Sys → HOut) :
    ∀ (subs : List Event) (pv : Option Nat) (i : Nat) (s : Sys),
      (handleSubs h subs pv i s).failedAt = none →
      ∀ ev ∈ (handleSubs h subs pv i s).events, ev.v = none := by
  intro subs
  induction subs with
  | nil => intro pv i s _ ev hev; simp [handleSubs_nil] at hev
  | cons sub rest ih =>
    intro pv i s hfail ev hev
    rw [handleSubs_cons] at hfail hev
    by_cases hc : ((h (sub.withV pv) s).event.withV none).error.isSome = true
    · rw [if_pos hc] at hfail
      simp at hfail
    · rw [if_neg hc] at hfail hev
      simp only at hfail hev
      rcases List.mem_cons.mp hev with hh | hh
      · subst hh; simp
      · exact ih pv (i + 1) _ hfail ev hh

theorem handleSubs_of_prefix_ok (h : Event → Sys → HOut) (pv : Option Nat) :
    ∀ (pre : List Event) (bad : Event) (post : List Event) (i : Nat) (s : Sys),
      (handleSubs h pre pv i s).failedAt = none →
      ((h (bad.withV pv) (handleSubs h pre pv i s).sys).event.withV none).error.isSome
        = true →
      handleSubs h (pre ++ bad :: post) pv i s =
        ⟨(handleSubs h pre pv i s).events ++
           moveFailedResult
             ((h (bad.withV pv) (handleSubs h pre pv i s).sys).event.withV none) :: post,
         some (i + pre.length),
         (h (bad.withV pv) (handleSubs h pre pv i s).sys).sys,
         (handleSubs h pre pv i s).acts ++
           (h (bad.withV pv) (handleSubs h pre pv i s).sys).acts⟩ := by
  intro pre
  induction pre with
  | nil =>
    intro bad post i s _ hbad
    rw [handleSubs_nil] at hbad ⊢
    simp only at hbad
    rw [List.nil_append, handleSubs_cons, if_pos hbad]
    simp
  | cons p pre' ih =>
    intro bad post i s hfail hbad
    rw [handleSubs_cons] at hfail hbad
    by_cases hc : ((h (p.withV pv) s).event.withV none).error.isSome = true
    · rw [if_pos hc] at hfail
      simp at hfail
    · rw [if_neg hc] at hfail hbad
      simp only at hfail hbad
      rw [List.cons_append, handleSubs_cons, if_neg hc,
        ih bad post (i + 1) _ hfail hbad, handleSubs_cons, if_neg hc]
      simp only [handleSubs_cons, if_neg hc]
      simp only [SubsOut.mk.injEq, List.cons_append, List.append_assoc,
        List.length_cons, Option.some.injEq, eq_self_iff_true, and_true, true_and]
      omega

/-- C6: in the sub-event loop after a successful apply, when the first
`pre.length` sub-events handle without error (state threaded left to
right) and the next one ends in error, the parent event comes back with
its `events` entry for each processed sub-event replaced by the handled
record (handled at `depth + 1` with the parent's `v`, the `v` field
removed again, the failing one with `result` moved to `failedResult`),
the sub-events after the failing one untouched, and the parent's `error`
set to `{_handle: "subevent <i> failed"}` with `<i>` the failing index;
every processed record of an error-free prefix has its `v` removed. -/
theorem claim_C6 (B : Behavior) (fuel depth : Nat) (e3 : Event) (s : Sys)
    (pre : List Event) (bad : Event) (post : List Event)
    (hev : e3.events = pre ++ bad :: post)
    (hpre : (handleSubs (fun ev sy => handleEvent B fuel ev (depth + 1) sy)
        pre e3.v 0 s).failedAt = none)
    (hbad : ((handleEvent B fuel (bad.withV e3.v) (depth + 1)
        (handleSubs (fun ev sy => handleEvent B fuel ev (depth + 1) sy)
          pre e3.v 0 s).sys).event.withV none).error.isSome = true) :
    subEventsPhase (fun ev sy => handleEvent B fuel ev (depth + 1) sy) e3 s =
      ⟨(e3.withEvents
          ((handleSubs (fun ev sy => handleEvent B fuel ev (depth + 1) sy)
              pre e3.v 0 s).events ++
            moveFailedResult
              ((handleEvent B fuel (bad.withV e3.v) (depth + 1)
                (handleSubs (fun ev sy => handleEvent B fuel ev (depth + 1) sy)
                  pre e3.v 0 s).sys).event.withV none) :: post)).withError
        (some [("_handle", .str ("subevent " ++ toString pre.length ++ " failed"))]),
       (handleEvent B fuel (bad.withV e3.v) (depth + 1)
         (handleSubs (fun ev sy => handleEvent B fuel ev (depth + 1) sy)
           pre e3.v 0 s).sys).sys,
       (handleSubs (fun ev sy => handleEvent B fuel ev (depth + 1) sy)
         pre e3.v 0 s).acts ++
       (handleEvent B fuel (bad.withV e3.v) (depth + 1)
         (handleSubs (fun ev sy => handleEvent B fuel ev (depth + 1) sy)
           pre e3.v 0 s).sys).acts⟩ ∧
    (∀ ev ∈ (handleSubs (fun ev sy => handleEvent B fuel ev (depth + 1) sy)
        pre e3.v 0 s).events, ev.v = none) := by
  refine ⟨?_, handleSubs_v_none _ pre e3.v 0 s hpre⟩
  simp only [subEventsPhase]
  rw [hev, handleSubs_of_prefix_ok _ e3.v pre bad post 0 s hpre hbad]
  simp [Nat.zero_add]

/-- A registry whose reducer throws exactly on sub-events of type
`SUB_BAD`. -/
def B6 : Behavior where
  preprocModels := []
  preprocessor := fun _ e => .pres e
  reducerNames := ["m"]
  reducer := fun _ e =>
    if e.type == "SUB_BAD" then .rthrow "subfail" else .retFalsy
  deriverModels := []
  applyChanges := fun _ _ s => .ok s
  deriver := fun _ _ s => .dok s []

def s6 : Sys := ⟨[], 0⟩

/-- A post-apply parent event with three pending sub-events, the second of
which will fail. -/
def e6c : Event :=
  (mkEvent (some 1) "TOP").withEvents
    [mkSubEvent "SUB_OK" none, mkSubEvent "SUB_BAD" none, mkSubEvent "SUB_OK2" none]

/-- C6 witness: the concrete sub-event loop stops at the failing index 1. -/
theorem claim_C6_witness :
    ((handleSubs (fun ev sy => handleEvent B6 100 ev (0 + 1) sy)
        [mkSubEvent "SUB_OK" none] e6c.v 0 s6).failedAt = none) ∧
    (((handleEvent B6 100 ((mkSubEvent "SUB_BAD" none).withV e6c.v) (0 + 1)
        (handleSubs (fun ev sy => handleEvent B6 100 ev (0 + 1) sy)
          [mkSubEvent "SUB_OK" none] e6c.v 0 s6).sys).event.withV none).error.isSome
      = true) ∧
    (∀ ev ∈ (handleSubs (fun ev sy => handleEvent B6 100 ev (0 + 1) sy)
        [mkSubEvent "SUB_OK" none] e6c.v 0 s6).events, ev.v = none) :=
  ⟨by decide, by decide,
   (claim_C6 B6 100 0 e6c s6 [mkSubEvent "SUB_OK" none] (mkSubEvent "SUB_BAD" none)
     [mkSubEvent "SUB_OK2" none] rfl (by decide) (by decide)).2⟩
